import Mathlib

/-!
CGAL: the integer QP solver driver and the OBJ reader.

A shallow embedding of two programs of the repository:

* `QP_solver/examples/QP_solver/integer_qp_solver.cpp` (`main`): the driver is
  modelled as a function from the observations it makes of its collaborators
  (the MPS loader and the solver) to the sequence of calls and outputs it
  performs, together with the process exit code;
* `Stream_support/include/CGAL/IO/OBJ.h` (`IO::internal::read_OBJ`): the reader
  is modelled over a character stream, with the formatted-input operations of
  the C++ standard library it uses (`getline`, `operator>>`, `ignore`).
-/

namespace QPDriver

/-! ## Data model of the driver -/

/-- The four compile-time structural hints; `true` is `Tag_true`, `false` is
`Tag_false`. -/
structure TagSet where
  Is_linear : Bool
  Is_symmetric : Bool
  Has_equalities_only_and_full_rank : Bool
  Is_in_standard_form : Bool
deriving DecidableEq

/-- The `struct Tags` of the driver: every hint is `Tag_false`. -/
def Tags : TagSet :=
  { Is_linear := false
    Is_symmetric := false
    Has_equalities_only_and_full_rank := false
    Is_in_standard_form := false }

/-- The function `check_tag`: the boolean a tag stands for. -/
def check_tag (t : Bool) : Bool := t

/-- Modelled from the spec: the enumeration `Solver::Status`, declared in
`CGAL/QP_solver.h`. The spec names `OPTIMAL`, `INFEASIBLE` and `UNBOUNDED`;
`OTHER` stands for any further enumerator the header may declare. -/
inductive Status where
  | OPTIMAL
  | INFEASIBLE
  | UNBOUNDED
  | OTHER (code : Nat)
deriving DecidableEq

/-- One operand written to `cout`: a string (a literal of the driver, the
error message or a variable name), `endl`, the problem itself (`cout << qp`,
with the text the loader renders it as), or a number. `num q` is
`CGAL::to_double(q)`: the conversion is for display only and is kept
symbolic. -/
inductive Item where
  | text (s : String)
  | endl
  | problem (s : String)
  | num (q : Rat)
deriving DecidableEq

/-- The observable actions of the driver on its collaborators, in program
order: member calls on the problem `qp`, on the `solver`, on the value
iterator `it`, and writes to `cout`. -/
inductive Event where
  | qp_construct (verbosity : Int)
  | qp_is_valid
  | qp_error
  | qp_print
  | qp_is_linear
  | qp_make_zero_D
  | qp_n
  | qp_name_of_variable (i : Nat)
  | solver_construct (verbosity : Int)
  | solver_is_valid
  | solver_status
  | solver_solution
  | solver_variables_value_begin
  | it_deref (k : Nat)
  | it_incr
  | cout (x : Item)
deriving DecidableEq

/-- What one run of the driver can observe of its collaborators: the verbosity
argument, the answers of the loaded problem, and the answers of the solver.
`variable_value k` is the element at position `k` of the sequence that starts
at `variables_value_begin()`. -/
structure Run where
  verbosity : Int
  qp_is_valid : Bool
  qp_error : String
  qp_text : String
  qp_is_linear : Bool
  qp_n : Nat
  qp_name_of_variable : Nat → String
  solver_is_valid : Bool
  solver_status : Status
  solver_solution : Rat
  variable_value : Nat → Rat

/-! ## The driver -/

/-- The body of one iteration of the reporting loop, for loop index `i` and
iterator position `k`, followed by the increment `++it`. -/
def value_step (r : Run) (i k : Nat) : List Event :=
  [ Event.cout (Item.text "  "),
    Event.qp_name_of_variable i,
    Event.cout (Item.text (r.qp_name_of_variable i)),
    Event.cout (Item.text " = "),
    Event.it_deref k,
    Event.cout (Item.num (r.variable_value k)),
    Event.cout Item.endl,
    Event.it_incr ]

/-- The loop `for (unsigned int i=0; i < qp.n(); ++it, ++i)`, entered with
index `i` and iterator position `k`. Each test of the condition calls
`qp.n()`. The index never wraps: `qp.n()` is an `int`. -/
def value_loop (r : Run) (i k : Nat) : List Event :=
  Event.qp_n ::
    (if i < r.qp_n then value_step r i k ++ value_loop r (i + 1) (k + 1) else [])
termination_by r.qp_n - i

/-- Lines 62-70: construction of the problem and the format check. -/
def load_events (r : Run) : List Event :=
  [Event.qp_construct r.verbosity, Event.qp_is_valid]

/-- Lines 67-68: the report of a format error. -/
def format_error_events (r : Run) : List Event :=
  [ Event.cout (Item.text "Input is not a valid MPS file."),
    Event.cout Item.endl,
    Event.cout (Item.text "Error: "),
    Event.qp_error,
    Event.cout (Item.text r.qp_error),
    Event.cout Item.endl ]

/-- Lines 72-74: the echo of the problem when `verbosity > 0`. -/
def echo_events (r : Run) : List Event :=
  if r.verbosity > 0 then
    [ Event.cout Item.endl, Event.qp_print, Event.cout (Item.problem r.qp_text),
      Event.cout Item.endl ]
  else []

/-- Lines 79-80: `if (qp.is_linear() && !check_tag(Tags::Is_linear()))
qp.make_zero_D();`. -/
def zero_D_events (tags : TagSet) (r : Run) : List Event :=
  Event.qp_is_linear ::
    (if r.qp_is_linear && !check_tag tags.Is_linear then [Event.qp_make_zero_D] else [])

/-- Lines 83-85: construction of the solver and the validity query. -/
def solve_events (r : Run) : List Event :=
  [Event.solver_construct r.verbosity, Event.solver_is_valid]

/-- Lines 93-104: the report of an optimal solution. -/
def optimal_events (r : Run) : List Event :=
  [ Event.cout (Item.text "Objective function value: "),
    Event.solver_solution,
    Event.cout (Item.num r.solver_solution),
    Event.cout Item.endl,
    Event.cout (Item.text "Variable values:"),
    Event.cout Item.endl,
    Event.solver_variables_value_begin ] ++ value_loop r 0 0

/-- Lines 93-110: everything after the solution was found valid. -/
def report_events (r : Run) : List Event :=
  Event.solver_status ::
    (if r.solver_status = Status.OPTIMAL then optimal_events r
     else
       Event.solver_status ::
         (if r.solver_status = Status.INFEASIBLE then
            [Event.cout (Item.text "Problem is infeasible."), Event.cout Item.endl]
          else
            [Event.cout (Item.text "Problem is unbounded."), Event.cout Item.endl]))

/-- The function `main`, for an arbitrary `Tags` structure: the actions
performed and the exit code (`std::exit(2)`, `return 1`, `return 0`). -/
def main_with (tags : TagSet) (r : Run) : List Event × Int :=
  if !r.qp_is_valid then
    (load_events r ++ format_error_events r, 2)
  else
    let before := load_events r ++ echo_events r ++ zero_D_events tags r ++ solve_events r
    if r.solver_is_valid then
      (before ++
        [Event.cout (Item.text "Solution is valid."), Event.cout Item.endl] ++
        report_events r, 0)
    else
      (before ++
        [Event.cout (Item.text "Solution is not valid!"), Event.cout Item.endl], 1)

/-- The driver as compiled: `main` with the `Tags` of the file. -/
def main (r : Run) : List Event × Int := main_with Tags r

/-- The operands written to `cout`, in order. -/
def outputs (t : List Event) : List Item :=
  t.filterMap (fun e => match e with
    | Event.cout x => some x
    | _ => none)

/-- The actions on the solution accessor: `solution()`,
`variables_value_begin()` and every use of the value iterator. -/
def is_accessor : Event → Bool
  | Event.solver_solution => true
  | Event.solver_variables_value_begin => true
  | Event.it_deref _ => true
  | Event.it_incr => true
  | _ => false

/-- The report line of variable `i` as the claim words it: the name of
variable `i` paired with element `i` of the value sequence. -/
def value_line (r : Run) (i : Nat) : List Item :=
  [ Item.text "  ", Item.text (r.qp_name_of_variable i), Item.text " = ",
    Item.num (r.variable_value i), Item.endl ]

/-- What is written before the value lines in a run that reports an optimum. -/
def optimal_header (r : Run) : List Item :=
  (if r.verbosity > 0 then [Item.endl, Item.problem r.qp_text, Item.endl] else []) ++
  [ Item.text "Solution is valid.", Item.endl,
    Item.text "Objective function value: ", Item.num r.solver_solution, Item.endl,
    Item.text "Variable values:", Item.endl ]

/-- A run with a malformed problem that the loader still classifies as linear. -/
def run_invalid_linear : Run :=
  { verbosity := 0
    qp_is_valid := false
    qp_error := "unexpected end of file"
    qp_text := ""
    qp_is_linear := true
    qp_n := 0
    qp_name_of_variable := fun _ => ""
    solver_is_valid := false
    solver_status := Status.INFEASIBLE
    solver_solution := 0
    variable_value := fun _ => 0 }

/-- A run whose solver reports `OPTIMAL` while its validity check fails. -/
def run_optimal_not_valid : Run :=
  { verbosity := 0
    qp_is_valid := true
    qp_error := ""
    qp_text := ""
    qp_is_linear := false
    qp_n := 1
    qp_name_of_variable := fun _ => "x"
    solver_is_valid := false
    solver_status := Status.OPTIMAL
    solver_solution := 0
    variable_value := fun _ => 0 }

/-- A run that solves `minimize x1 + x2` to the optimum `(2, 0)`. -/
def run_optimal : Run :=
  { verbosity := 1
    qp_is_valid := true
    qp_error := ""
    qp_text := "NAME example"
    qp_is_linear := true
    qp_n := 2
    qp_name_of_variable := fun i => if i = 0 then "x1" else "x2"
    solver_is_valid := true
    solver_status := Status.OPTIMAL
    solver_solution := 2
    variable_value := fun k => if k = 0 then 2 else 0 }

/-- A run with a malformed problem. -/
def run_malformed : Run :=
  { run_invalid_linear with qp_is_linear := false }

/-- A run with a well-formed problem and a failed validity check. -/
def run_not_valid : Run :=
  { run_optimal with solver_is_valid := false }

end QPDriver

namespace CGAL

/-! ## Formatted input of the C++ standard library, as used by the reader -/

/-- The function `std::isspace` in the classic locale: space, `\t`, `\n`,
`\v`, `\f`, `\r`. -/
def isspace (c : Char) : Bool :=
  c.toNat = 32 || (9 ≤ c.toNat && c.toNat ≤ 13)

/-- The function `std::isdigit`: the characters `0` to `9`. -/
def isdigit (c : Char) : Bool :=
  48 ≤ c.toNat && c.toNat ≤ 57

/-- The value of a sequence of decimal digits, most significant first, as the
conversion of `num_get` accumulates it. -/
def digits_value (ds : List Char) : Nat :=
  ds.foldl (fun acc c => 10 * acc + (c.toNat - 48)) 0

/-- The largest value of an `int`. -/
def INT_MAX : Int := 2147483647

/-- The smallest value of an `int`. -/
def INT_MIN : Int := -2147483648

/-- The state of a `std::istringstream`: the characters not yet extracted and
the state bits. `badbit` is left out: no operation on a string buffer sets
it, so `iss.bad()` is false throughout. -/
structure ISS where
  buf : List Char
  eofbit : Bool
  failbit : Bool
deriving DecidableEq

/-- The stream `std::istringstream iss(line)`. -/
def ISS.of_line (line : List Char) : ISS :=
  { buf := line, eofbit := false, failbit := false }

/-- The sentry of a formatted input function (`skipws` set): on a stream that
is not `good()` it sets `failbit`; otherwise it discards leading whitespace,
and sets `eofbit` and `failbit` when it runs into the end. The extraction
proceeds when `failbit` is clear afterwards. -/
def sentry (s : ISS) : ISS :=
  if s.eofbit || s.failbit then { s with failbit := true }
  else
    match s.buf.dropWhile isspace with
    | [] => { buf := [], eofbit := true, failbit := true }
    | b => { s with buf := b }

/-- The extraction `iss >> s` of a `std::string`: the characters up to the
next whitespace or the end; `none` when the stream has `failbit` set
afterwards. -/
def extract_string (s : ISS) : ISS × Option (List Char) :=
  let s1 := sentry s
  if s1.failbit then (s1, none)
  else
    let rest := s1.buf.dropWhile (fun c => !isspace c)
    ({ s1 with buf := rest, eofbit := rest.isEmpty },
     some (s1.buf.takeWhile (fun c => !isspace c)))

/-- The optional sign in front of a number: whether it is `-`, and the
characters after it. -/
def strip_sign : List Char → Bool × List Char
  | c :: t => if c = '-' then (true, t) else if c = '+' then (false, t) else (false, c :: t)
  | [] => (false, [])

/-- The `int` a sign and a sequence of digits stand for: none when there is
no digit, or when the value does not fit an `int`. -/
def int_value (negative : Bool) (ds : List Char) : Option Int :=
  if ds.isEmpty then none
  else
    let v : Int := if negative then -(digits_value ds : Int) else (digits_value ds : Int)
    if v < INT_MIN ∨ INT_MAX < v then none else some v

/-- The extraction `iss >> i` of an `int` (decimal base): an optional sign and
the digits that follow. It fails, with `failbit` set, when there is no digit
or when the value does not fit an `int`; it sets `eofbit` when it reaches
the last character of the buffer. `none` when the stream has `failbit` set
afterwards. -/
def extract_int (s : ISS) : ISS × Option Int :=
  let s1 := sentry s
  if s1.failbit then (s1, none)
  else
    let signed := strip_sign s1.buf
    let rest := signed.2.dropWhile isdigit
    match int_value signed.1 (signed.2.takeWhile isdigit) with
    | none => ({ buf := rest, eofbit := rest.isEmpty, failbit := true }, none)
    | some v => ({ buf := rest, eofbit := rest.isEmpty, failbit := false }, some v)

/-- The characters `ignore(n, delim)` leaves, and whether it ran into the end:
it discards characters until `n` are discarded, or the end is reached, or the
delimiter is discarded. -/
def ignore_chars : Nat → Char → List Char → List Char × Bool
  | 0, _, b => (b, false)
  | _ + 1, _, [] => ([], true)
  | n + 1, d, c :: cs => if c = d then (cs, false) else ignore_chars n d cs

/-- The unformatted input function `iss.ignore(n, delim)`: on a stream that is
not `good()` it sets `failbit` and extracts nothing. -/
def ignore (n : Nat) (delim : Char) (s : ISS) : ISS :=
  if s.eofbit || s.failbit then { s with failbit := true }
  else
    let r := ignore_chars n delim s.buf
    { s with buf := r.1, eofbit := r.2 }

/-- The lines that the successive calls `getline(is, line)` of the loop
`while(getline(is, line))` produce, until the call that extracts nothing and
fails: `acc` holds, reversed, the characters of the line being read. -/
def getlines_from : List Char → List Char → List (List Char)
  | acc, [] => if acc.isEmpty then [] else [acc.reverse]
  | acc, c :: cs =>
    if c = '\n' then acc.reverse :: getlines_from [] cs else getlines_from (c :: acc) cs

/-- The lines of a stream, as `getline` delivers them. -/
def getlines (cs : List Char) : List (List Char) := getlines_from [] cs

/-! ## The reader -/

/-- The modulus of `std::size_t` arithmetic. -/
def SIZE_MOD : Nat := 2 ^ 64

/-- The conversion of an `int` to `std::size_t`. -/
def to_size_t (i : Int) : Nat := (i % (SIZE_MOD : Int)).toNat

/-- The conversion `static_cast<int>(n)` of a `std::size_t`. -/
def static_cast_int (n : Nat) : Int :=
  if n % 2 ^ 32 < 2 ^ 31 then ((n % 2 ^ 32 : Nat) : Int) else ((n % 2 ^ 32 : Nat) : Int) - 2 ^ 32

/-- The variables `read_OBJ` works on: the ranges `points` and `faces` (a face
is a sequence of `std::size_t`), the normals written through `vn_out`, and the
locals `mini` and `maxi`. -/
structure State (P N : Type) where
  points : List P
  normals : List N
  faces : List (List Nat)
  mini : Int
  maxi : Int

/-- The statement `faces.back().push_back(v)`. -/
def back_push_back (faces : List (List Nat)) (v : Nat) : List (List Nat) :=
  match faces.getLast? with
  | some f => faces.dropLast ++ [f ++ [v]]
  | none => faces

/-- The body of the loop `while(iss >> i)` (lines 105-116) for the value `i`
just read, before the call of `ignore`. -/
def face_step {P N : Type} (st : State P N) (i : Int) : State P N :=
  if i < 1 then
    { st with
      faces := back_push_back st.faces ((st.points.length + to_size_t i) % SIZE_MOD)
      mini := if i < st.mini then i else st.mini }
  else
    { st with
      faces := back_push_back st.faces (to_size_t (i - 1))
      maxi := if i - 1 > st.maxi then i - 1 else st.maxi }

/-- The loop `while(iss >> i) { ...; iss.ignore(256, ' '); }` (lines 103-121).
Every iteration extracts at least one character, so `fuel` larger than the
length of the buffer is never used up. -/
def face_loop {P N : Type} : Nat → ISS → State P N → ISS × State P N
  | 0, iss, st => (iss, st)
  | fuel + 1, iss, st =>
    match extract_int iss with
    | (iss1, none) => (iss1, st)
    | (iss1, some i) => face_loop fuel (ignore 256 ' ' iss1) (face_step st i)

/-- What the treatment of one line leads to: the next iteration of the loop,
or `return false`. Either way the variables keep what was stored in them. -/
inductive Outcome (P N : Type) where
  | next (st : State P N)
  | return_false (st : State P N)

/-- The body of the loop `while(getline(is, line))` (lines 63-130) for one
line. The extraction of a point (`iss >> p`) and of a normal
(`iss >> nx >> ny >> nz`) depend on the number types of the kernel and are
parameters: each yields the value read, or `none` when the extraction fails. -/
def process_line {P N : Type} (read_point : ISS → Option P) (read_normal : ISS → Option N)
    (st : State P N) (line : List Char) : Outcome P N :=
  if line.isEmpty then Outcome.next st
  else
    match extract_string (ISS.of_line line) with
    | (_, none) => Outcome.next st
    | (iss, some s) =>
      if s = ['v'] then
        match read_point iss with
        | none => Outcome.return_false st
        | some p => Outcome.next { st with points := st.points ++ [p] }
      else if s = ['v', 't'] then Outcome.next st
      else if s = ['v', 'n'] then
        match read_normal iss with
        | some n => Outcome.next { st with normals := st.normals ++ [n] }
        | none => Outcome.return_false st
      else if s = ['f'] then
        Outcome.next
          (face_loop (iss.buf.length + 1) iss { st with faces := st.faces ++ [[]] }).2
      else Outcome.next st

/-- The loop `while(getline(is, line))` over the lines of the stream. -/
def read_loop {P N : Type} (read_point : ISS → Option P) (read_normal : ISS → Option N) :
    State P N → List (List Char) → Outcome P N
  | st, [] => Outcome.next st
  | st, line :: lines =>
    match process_line read_point read_normal st line with
    | Outcome.next st1 => read_loop read_point read_normal st1 lines
    | Outcome.return_false st1 => Outcome.return_false st1

/-- An input stream as the reader sees it: whether `is.good()` holds on entry,
and the characters to read. Reading meets no device error, so `is.bad()` is
false when the end of the stream is reached. -/
structure IStream where
  good : Bool
  chars : List Char

namespace internal

/-- The function `IO::internal::read_OBJ`: the value returned and the
variables at that point. -/
def read_OBJ {P N : Type} (read_point : ISS → Option P) (read_normal : ISS → Option N)
    (is : IStream) (points : List P) (faces : List (List Nat)) : Bool × State P N :=
  let st0 : State P N :=
    { points := points, normals := [], faces := faces, mini := 1, maxi := -1 }
  if !is.good then (false, st0)
  else
    match read_loop read_point read_normal st0 (getlines is.chars) with
    | Outcome.return_false st => (false, st)
    | Outcome.next st =>
      if st.maxi = -1 ∧ st.mini = 1 then (false, st)
      else if st.maxi > static_cast_int st.points.length ∨
          st.mini < -static_cast_int st.points.length then (false, st)
      else (true, st)

end internal

/-- The function `CGAL::read_OBJ(is, points, faces)` of lines 193-197: the
internal reader with `vn_out` a `CGAL::Emptyset_iterator`. The normals of the
`vn` lines are extracted as in the internal reader and then discarded; the
function yields the value returned, the points and the faces. -/
def read_OBJ {P N : Type} (read_point : ISS → Option P) (read_normal : ISS → Option N)
    (is : IStream) (points : List P) (faces : List (List Nat)) :
    Bool × List P × List (List Nat) :=
  let r := internal.read_OBJ read_point read_normal is points faces
  (r.1, r.2.points, r.2.faces)

/-- The extraction `iss >> p` for a point with `int` coordinates: three
extractions of an `int`. -/
def read_int_point (iss : ISS) : Option (Int × Int × Int) :=
  match extract_int iss with
  | (_, none) => none
  | (s1, some x) =>
    match extract_int s1 with
    | (_, none) => none
    | (s2, some y) =>
      match extract_int s2 with
      | (_, none) => none
      | (_, some z) => some (x, y, z)

/-! ## Vocabulary of the claims about the reader -/

/-- The index the body of the face loop stores for the integer `i` when
`npoints` points were read. -/
def stored_index (npoints : Nat) (i : Int) : Nat :=
  if i < 1 then (npoints + to_size_t i) % SIZE_MOD else to_size_t (i - 1)

/-- The variables an outcome carries. -/
def Outcome.state {P N : Type} : Outcome P N → State P N
  | Outcome.next st => st
  | Outcome.return_false st => st

/-- Whether the loop goes on after the line. -/
def Outcome.continues {P N : Type} : Outcome P N → Bool
  | Outcome.next _ => true
  | Outcome.return_false _ => false

/-- The first whitespace-delimited word of a line (`iss >> s`), if any. -/
def first_word (line : List Char) : Option (List Char) :=
  (extract_string (ISS.of_line line)).2

/-- The stream `iss` after the first word of the line was extracted. -/
def after_first_word (line : List Char) : ISS :=
  (extract_string (ISS.of_line line)).1

/-- The integers read on a face line: the values that the condition
`iss >> i` of the loop extracts, one after the other, with the call
`iss.ignore(256, ' ')` between two extractions. -/
def ints_read : Nat → ISS → List Int
  | 0, _ => []
  | fuel + 1, iss =>
    match extract_int iss with
    | (_, none) => []
    | (iss1, some i) => i :: ints_read fuel (ignore 256 ' ' iss1)

/-- The integers read on the line whose stream stands at `iss`. -/
def ints_of (iss : ISS) : List Int := ints_read (iss.buf.length + 1) iss

/-- The conversion of face indices as the claim words it, on integers: an
index `i >= 1` stands for `i - 1`, an index `i < 1` for `npoints + i`. -/
def claimed_index (npoints : Nat) (i : Int) : Int :=
  if 1 ≤ i then i - 1 else (npoints : Int) + i

/-- A sequence of decimal digits that is not empty. -/
def numeral (ds : List Char) : Prop := ds ≠ [] ∧ ∀ c ∈ ds, isdigit c = true

instance (ds : List Char) : Decidable (numeral ds) := by
  unfold numeral; infer_instance

/-- One corner `v/vt/vn` of a face line: the digits of the three ids. -/
structure Corner where
  v : List Char
  vt : List Char
  vn : List Char

/-- The three ids of a corner are positive integers written in decimal. -/
def Corner.positive (c : Corner) : Prop :=
  (numeral c.v ∧ 1 ≤ digits_value c.v) ∧ (numeral c.vt ∧ 1 ≤ digits_value c.vt) ∧
    (numeral c.vn ∧ 1 ≤ digits_value c.vn)

instance (c : Corner) : Decidable c.positive := by
  unfold Corner.positive; infer_instance

/-- The line `f v1/vt1/vn1 v2/vt2/vn2 ... vk/vtk/vnk`. -/
def slash_line (cs : List Corner) : List Char :=
  'f' :: (cs.map (fun c => ' ' :: (c.v ++ '/' :: (c.vt ++ '/' :: c.vn)))).flatten

/-- The line `f v1 v2 ... vk`. -/
def plain_line (cs : List Corner) : List Char :=
  'f' :: (cs.map (fun c => ' ' :: c.v)).flatten

/-- The face `[v1-1, v2-1, ..., vk-1]` the claim expects. -/
def vertex_face (cs : List Corner) : List Nat :=
  cs.map (fun c => digits_value c.v - 1)

/-- An empty reader state, as `read_OBJ` starts from with empty ranges. -/
def empty_state : State (Int × Int × Int) Unit :=
  { points := [], normals := [], faces := [], mini := 1, maxi := -1 }

/-- A reader state after three vertices were read. -/
def three_points_state : State (Int × Int × Int) Unit :=
  { points := [(0, 0, 0), (1, 0, 0), (0, 1, 0)], normals := [], faces := [], mini := 1, maxi := -1 }

/-- The extraction of a normal used in the examples, none of which has a
`vn` line: it is never called there. -/
def no_normal (_ : ISS) : Option Unit := none

/-- A face line after its first word, as a sequence of tokens: each token is a
space, the digits of a vertex id, and what follows them up to the next
space. -/
def tokens_text (ts : List (List Char × List Char)) : List Char :=
  (ts.map (fun t => ' ' :: (t.1 ++ t.2))).flatten

/-- A token whose vertex id is a positive `int` and whose remainder holds no
space, has at most the 256 characters `ignore` discards, and does not start
with a digit. -/
def good_token (t : List Char × List Char) : Prop :=
  numeral t.1 ∧ 1 ≤ digits_value t.1 ∧ (digits_value t.1 : Int) ≤ INT_MAX ∧
    (∀ c ∈ t.2, c ≠ ' ') ∧ t.2.length ≤ 256 ∧ (∀ c, t.2.head? = some c → isdigit c = false)

/-- A corner whose vertex id does not fit an `int`. -/
def corner_too_large : Corner :=
  { v := "2147483648".toList, vt := "1".toList, vn := "1".toList }

/-- A corner whose texture id has 257 digits. -/
def corner_too_long : Corner :=
  { v := "1".toList, vt := '1' :: List.replicate 256 '0', vn := "1".toList }

/-- A corner whose part `/vt/vn` has exactly 257 characters: a texture id of
254 digits and the normal id 7. -/
def corner_257 : Corner :=
  { v := "1".toList, vt := List.replicate 254 '1', vn := "7".toList }

/-- A corner whose part `/vt/vn` has exactly 256 characters: a texture id of
253 digits and the normal id 7. -/
def corner_256 : Corner :=
  { v := "3".toList, vt := List.replicate 253 '1', vn := "7".toList }

/-- The corner `2/1/1`. -/
def corner_two : Corner :=
  { v := "2".toList, vt := "1".toList, vn := "1".toList }

/-- The corner `3/7/2`. -/
def corner_three : Corner :=
  { v := "3".toList, vt := "7".toList, vn := "2".toList }

end CGAL


namespace QPDriver

/-! ## Auxiliary facts about the reporting loop -/

theorem value_loop_unfold (r : Run) (i k : Nat) :
    value_loop r i k =
      Event.qp_n ::
        (if i < r.qp_n then value_step r i k ++ value_loop r (i + 1) (k + 1) else []) := by
  rw [value_loop]

theorem outputs_append (s t : List Event) : outputs (s ++ t) = outputs s ++ outputs t := by
  simp [outputs, List.filterMap_append]

theorem outputs_value_loop (r : Run) :
    ∀ (d i : Nat), r.qp_n - i = d →
      outputs (value_loop r i i) = ((List.range' i d).map (value_line r)).flatten := by
  intro d
  induction d with
  | zero =>
    intro i h
    rw [value_loop_unfold]
    have : ¬ i < r.qp_n := by omega
    simp [this, outputs]
  | succ d ih =>
    intro i h
    rw [value_loop_unfold]
    have hlt : i < r.qp_n := by omega
    have hd : r.qp_n - (i + 1) = d := by omega
    have hrec := ih (i + 1) hd
    simp only [hlt, if_true]
    have hsplit : outputs (Event.qp_n :: (value_step r i i ++ value_loop r (i + 1) (i + 1)))
        = value_line r i ++ outputs (value_loop r (i + 1) (i + 1)) := by
      simp [outputs, value_step, value_line]
    rw [hsplit, hrec]
    simp [List.range'_succ]

theorem accessors_value_loop (r : Run) :
    ∀ (d i : Nat), r.qp_n - i = d →
      (value_loop r i i).filter is_accessor
        = ((List.range' i d).map (fun j => [Event.it_deref j, Event.it_incr])).flatten := by
  intro d
  induction d with
  | zero =>
    intro i h
    rw [value_loop_unfold]
    have : ¬ i < r.qp_n := by omega
    simp [this, is_accessor]
  | succ d ih =>
    intro i h
    rw [value_loop_unfold]
    have hlt : i < r.qp_n := by omega
    have hd : r.qp_n - (i + 1) = d := by omega
    have hrec := ih (i + 1) hd
    simp only [hlt, if_true]
    simp [value_step, is_accessor, List.filter_cons, List.range'_succ, hrec]

/-- Every action of the loop is a call of `qp.n()` or belongs to one iteration. -/
theorem mem_value_loop (r : Run) (e : Event) :
    ∀ (d i k : Nat), r.qp_n - i = d → e ∈ value_loop r i k →
      e = Event.qp_n ∨ ∃ j m, e ∈ value_step r j m := by
  intro d
  induction d with
  | zero =>
    intro i k h he
    rw [value_loop_unfold] at he
    have : ¬ i < r.qp_n := by omega
    simp [this] at he
    exact Or.inl he
  | succ d ih =>
    intro i k h he
    rw [value_loop_unfold] at he
    have hlt : i < r.qp_n := by omega
    have hd : r.qp_n - (i + 1) = d := by omega
    simp only [hlt, if_true, List.mem_cons, List.mem_append] at he
    rcases he with he | he | he
    · exact Or.inl he
    · exact Or.inr ⟨i, k, he⟩
    · exact ih (i + 1) (k + 1) hd he

theorem make_zero_D_not_mem_value_loop (r : Run) (i k : Nat) :
    Event.qp_make_zero_D ∉ value_loop r i k := by
  intro h
  rcases mem_value_loop r _ _ i k rfl h with h | ⟨j, m, h⟩
  · cases h
  · simp [value_step] at h

theorem solver_construct_not_mem_value_loop (r : Run) (i k : Nat) (v : Int) :
    Event.solver_construct v ∉ value_loop r i k := by
  intro h
  rcases mem_value_loop r _ _ i k rfl h with h | ⟨j, m, h⟩
  · cases h
  · simp [value_step] at h

/-- The echo of the problem is either absent or the four actions of line 73. -/
theorem echo_events_cases (r : Run) :
    echo_events r = [] ∨
      echo_events r =
        [ Event.cout Item.endl, Event.qp_print, Event.cout (Item.problem r.qp_text),
          Event.cout Item.endl ] := by
  unfold echo_events
  split
  · exact Or.inr rfl
  · exact Or.inl rfl

/-- In a list that splits as `p ++ q`, everything after an occurrence of an
element that `p` does not contain lies in `q`. -/
theorem suffix_of_split {p q a b : List Event} {e : Event}
    (h : p ++ q = a ++ e :: b) (hp : e ∉ p) : ∀ y ∈ b, y ∈ q := by
  rcases List.append_eq_append_iff.mp h with ⟨a', _, hq⟩ | ⟨c', hc, hq⟩
  · intro y hy; rw [hq]; simp [hy]
  · cases c' with
    | nil => intro y hy; simp at hq; rw [← hq]; simp [hy]
    | cons z zs =>
      simp at hq
      exact absurd (by rw [hc, ← hq.1]; simp) hp

/-- In a list that splits as `p ++ q`, an element of `p` comes before every
position that holds an element satisfying `f`, when no element of `p` does. -/
theorem mem_before_of_split {f : Event → Bool} {p q a b : List Event} {e x : Event}
    (h : p ++ q = a ++ e :: b) (hp : ∀ y ∈ p, f y = false) (he : f e = true)
    (hx : x ∈ p) : x ∈ a := by
  rcases List.append_eq_append_iff.mp h with ⟨a', ha, _⟩ | ⟨c', hc, hq⟩
  · rw [ha]; exact List.mem_append_left _ hx
  · cases c' with
    | nil => simp at hc; rw [← hc]; exact hx
    | cons y ys =>
      simp at hq
      have hmem : e ∈ p := by rw [hc]; simp [hq.1]
      have := hp e hmem
      rw [he] at this
      cases this

/-- In a list that splits as `p ++ q`, everything before an occurrence of an
element that `q` does not contain lies in `p`. -/
theorem before_of_split {p q a b : List Event} {e : Event}
    (h : p ++ q = a ++ e :: b) (hq : e ∉ q) : ∀ y ∈ a, y ∈ p := by
  rcases List.append_eq_append_iff.mp h with ⟨a', _, hq'⟩ | ⟨c', hc, _⟩
  · exact absurd (by rw [hq']; simp) hq
  · intro y hy; rw [hc]; exact List.mem_append_left _ hy

/-! ## The claims about the driver -/

/-- C1: the exit code of the driver is determined by `qp.is_valid()` and
`solver.is_valid()` alone: it is 2 when the problem is not valid, otherwise 1
when the solver is not valid, otherwise 0 whatever the status; no other code
is produced. -/
theorem exit_code_contract (r : Run) :
    (main r).2 =
        (if r.qp_is_valid = false then 2 else if r.solver_is_valid = false then 1 else 0)
      ∧ ((main r).2 = 0 ∨ (main r).2 = 1 ∨ (main r).2 = 2) := by
  cases hq : r.qp_is_valid <;> cases hs : r.solver_is_valid <;>
    simp [main, main_with, hq, hs]

/-- C2: when the loaded problem is not valid, the driver writes the format
error with the text of `qp.error()` and exits with code 2 at once: its whole
activity is the load, the validity query and the error report, so that
`make_zero_D` is not called, no solver is constructed, and no member of a
solver is invoked. -/
theorem format_error_stops_before_solver (r : Run) (h : r.qp_is_valid = false) :
    (main r).1 = load_events r ++ format_error_events r
      ∧ outputs (main r).1 =
          [ Item.text "Input is not a valid MPS file.", Item.endl,
            Item.text "Error: ", Item.text r.qp_error, Item.endl ]
      ∧ (main r).2 = 2
      ∧ Event.qp_make_zero_D ∉ (main r).1
      ∧ (∀ v, Event.solver_construct v ∉ (main r).1)
      ∧ Event.solver_is_valid ∉ (main r).1
      ∧ Event.solver_status ∉ (main r).1
      ∧ Event.solver_solution ∉ (main r).1 := by
  simp [main, main_with, h, load_events, format_error_events, outputs]

theorem format_error_stops_before_solver_witness :
    run_malformed.qp_is_valid = false
      ∧ (main run_malformed).1 = load_events run_malformed ++ format_error_events run_malformed
      ∧ outputs (main run_malformed).1 =
          [ Item.text "Input is not a valid MPS file.", Item.endl,
            Item.text "Error: ", Item.text run_malformed.qp_error, Item.endl ]
      ∧ (main run_malformed).2 = 2
      ∧ Event.qp_make_zero_D ∉ (main run_malformed).1
      ∧ (∀ v, Event.solver_construct v ∉ (main run_malformed).1)
      ∧ Event.solver_is_valid ∉ (main run_malformed).1
      ∧ Event.solver_status ∉ (main run_malformed).1
      ∧ Event.solver_solution ∉ (main run_malformed).1 :=
  ⟨rfl, format_error_stops_before_solver run_malformed rfl⟩

/-- C3: with a valid problem and `solver.is_valid()` false, the driver writes
"Solution is not valid!" as its last action and returns 1: it never queries
`status()`, never uses `solution()`, `variables_value_begin()` or the value
iterator, and writes no objective value, variable value, infeasible or
unbounded message. -/
theorem not_valid_reported_and_stops (r : Run)
    (hq : r.qp_is_valid = true) (hs : r.solver_is_valid = false) :
    (∃ before, (main r).1 =
        before ++ [ Event.solver_is_valid,
                    Event.cout (Item.text "Solution is not valid!"),
                    Event.cout Item.endl ])
      ∧ (main r).2 = 1
      ∧ Event.solver_status ∉ (main r).1
      ∧ (∀ e ∈ (main r).1, is_accessor e = false)
      ∧ (∀ q, Item.num q ∉ outputs (main r).1)
      ∧ Item.text "Objective function value: " ∉ outputs (main r).1
      ∧ Item.text "Variable values:" ∉ outputs (main r).1
      ∧ Item.text "Problem is infeasible." ∉ outputs (main r).1
      ∧ Item.text "Problem is unbounded." ∉ outputs (main r).1 := by
  refine ⟨⟨load_events r ++ echo_events r ++ zero_D_events Tags r ++
      [Event.solver_construct r.verbosity], ?_⟩, ?_⟩
  · simp [main, main_with, hq, hs, solve_events]
  · by_cases hv : r.verbosity > 0 <;> cases hl : r.qp_is_linear <;>
      simp [main, main_with, hq, hs, hv, hl, load_events, echo_events, zero_D_events,
        solve_events, outputs, is_accessor, Tags, check_tag]

theorem not_valid_reported_and_stops_witness :
    run_not_valid.qp_is_valid = true ∧ run_not_valid.solver_is_valid = false
      ∧ (∃ before, (main run_not_valid).1 =
          before ++ [ Event.solver_is_valid,
                      Event.cout (Item.text "Solution is not valid!"),
                      Event.cout Item.endl ])
      ∧ (main run_not_valid).2 = 1
      ∧ Event.solver_status ∉ (main run_not_valid).1
      ∧ (∀ e ∈ (main run_not_valid).1, is_accessor e = false)
      ∧ (∀ q, Item.num q ∉ outputs (main run_not_valid).1)
      ∧ Item.text "Objective function value: " ∉ outputs (main run_not_valid).1
      ∧ Item.text "Variable values:" ∉ outputs (main run_not_valid).1
      ∧ Item.text "Problem is infeasible." ∉ outputs (main run_not_valid).1
      ∧ Item.text "Problem is unbounded." ∉ outputs (main run_not_valid).1 :=
  ⟨rfl, rfl, not_valid_reported_and_stops run_not_valid rfl rfl⟩

/-- Outside the runs that reach the optimal report, the driver performs no
action on the solution accessor. -/
theorem no_accessor_unless_optimal (r : Run)
    (h : ¬ (r.qp_is_valid = true ∧ r.solver_is_valid = true ∧
      r.solver_status = Status.OPTIMAL)) :
    ∀ e ∈ (main r).1, is_accessor e = false := by
  rcases echo_events_cases r with he | he <;>
    cases hq : r.qp_is_valid <;> cases hs : r.solver_is_valid <;>
    cases hl : r.qp_is_linear <;>
    by_cases ho : r.solver_status = Status.OPTIMAL <;>
    by_cases hi : r.solver_status = Status.INFEASIBLE <;>
    simp_all [main, main_with, load_events, format_error_events,
      zero_D_events, solve_events, report_events, is_accessor, Tags, check_tag]

/-- The trace of a run that reaches the optimal report: everything up to the
first write of the report, then the accessor calls. -/
theorem main_optimal_split (r : Run) (hq : r.qp_is_valid = true)
    (hs : r.solver_is_valid = true) (ho : r.solver_status = Status.OPTIMAL) :
    (main r).1 =
      (load_events r ++ echo_events r ++ zero_D_events Tags r ++ solve_events r ++
        [ Event.cout (Item.text "Solution is valid."), Event.cout Item.endl,
          Event.solver_status ]) ++ optimal_events r := by
  simp [main, main_with, hq, hs, ho, report_events]

/-- C4: the driver uses the solution accessor (`solution()`,
`variables_value_begin()`, the value iterator) in a run exactly when the
problem is valid, `solver.is_valid()` returned true and `solver.status()` is
`OPTIMAL`; in particular never when the status is `INFEASIBLE` or anything
else. Every such use comes after the `is_valid()` query and after the
`status()` query. -/
theorem accessor_only_when_optimal (r : Run) :
    (Event.solver_solution ∈ (main r).1 ↔
        (r.qp_is_valid = true ∧ r.solver_is_valid = true ∧
          r.solver_status = Status.OPTIMAL))
      ∧ (Event.solver_variables_value_begin ∈ (main r).1 ↔
        (r.qp_is_valid = true ∧ r.solver_is_valid = true ∧
          r.solver_status = Status.OPTIMAL))
      ∧ (r.solver_status ≠ Status.OPTIMAL → ∀ e ∈ (main r).1, is_accessor e = false)
      ∧ (∀ a e b, (main r).1 = a ++ e :: b → is_accessor e = true →
          Event.solver_is_valid ∈ a ∧ Event.solver_status ∈ a) := by
  refine ⟨⟨?_, ?_⟩, ⟨?_, ?_⟩, ?_, ?_⟩
  · intro hmem
    by_contra hno
    have := no_accessor_unless_optimal r hno _ hmem
    simp [is_accessor] at this
  · rintro ⟨hq, hs, ho⟩
    rw [main_optimal_split r hq hs ho]
    simp [optimal_events]
  · intro hmem
    by_contra hno
    have := no_accessor_unless_optimal r hno _ hmem
    simp [is_accessor] at this
  · rintro ⟨hq, hs, ho⟩
    rw [main_optimal_split r hq hs ho]
    simp [optimal_events]
  · intro hne
    exact no_accessor_unless_optimal r (fun h => hne h.2.2)
  · intro a e b hsplit hacc
    by_cases hall : r.qp_is_valid = true ∧ r.solver_is_valid = true ∧
        r.solver_status = Status.OPTIMAL
    · obtain ⟨hq, hs, ho⟩ := hall
      rw [main_optimal_split r hq hs ho] at hsplit
      have hp : ∀ y ∈ load_events r ++ echo_events r ++ zero_D_events Tags r ++
          solve_events r ++ [ Event.cout (Item.text "Solution is valid."),
            Event.cout Item.endl, Event.solver_status ], is_accessor y = false := by
        rcases echo_events_cases r with he | he <;> cases hl : r.qp_is_linear <;>
          simp [load_events, he, zero_D_events, solve_events, is_accessor,
            hl, Tags, check_tag]
      constructor
      · exact mem_before_of_split hsplit hp hacc (by simp [solve_events])
      · exact mem_before_of_split hsplit hp hacc (by simp)
    · have hmem : e ∈ (main r).1 := by rw [hsplit]; simp
      have := no_accessor_unless_optimal r hall e hmem
      rw [hacc] at this
      cases this

/-- C5, as stated, fails: in a run whose problem is malformed while
`qp.is_linear()` holds, `make_zero_D` is not called although the `Is_linear`
tag is false. -/
theorem make_zero_D_not_in_every_run :
    run_invalid_linear.qp_is_linear = true ∧ check_tag Tags.Is_linear = false
      ∧ Event.qp_make_zero_D ∉ (main run_invalid_linear).1
      ∧ ¬ (Event.qp_make_zero_D ∈ (main run_invalid_linear).1 ↔
            (run_invalid_linear.qp_is_linear = true ∧ check_tag Tags.Is_linear = false)) := by
  have hno : Event.qp_make_zero_D ∉ (main run_invalid_linear).1 := by
    simp [main, main_with, run_invalid_linear, load_events, format_error_events]
  refine ⟨rfl, rfl, hno, ?_⟩
  intro h
  exact hno (h.mpr ⟨rfl, rfl⟩)

/-- The trace of any run splits into the part before the solver exists, which
holds the only possible call of `make_zero_D`, and the part that starts with
the construction of the solver. -/
theorem main_with_split (tags : TagSet) (r : Run) :
    ∃ p q, (main_with tags r).1 = p ++ q ∧ Event.qp_make_zero_D ∉ q
      ∧ (∀ v, Event.solver_construct v ∉ p)
      ∧ List.count Event.qp_make_zero_D p ≤ 1
      ∧ (Event.qp_make_zero_D ∈ p ↔
          (r.qp_is_valid = true ∧ r.qp_is_linear = true ∧
            check_tag tags.Is_linear = false)) := by
  have hloop := make_zero_D_not_mem_value_loop r 0 0
  cases hq : r.qp_is_valid
  · refine ⟨load_events r ++ format_error_events r, [], ?_⟩
    simp [main_with, hq, load_events, format_error_events]
  · cases hs : r.solver_is_valid
    · refine ⟨load_events r ++ echo_events r ++ zero_D_events tags r,
        solve_events r ++ [Event.cout (Item.text "Solution is not valid!"),
          Event.cout Item.endl], ?_⟩
      rcases echo_events_cases r with he | he <;> cases hl : r.qp_is_linear <;>
        cases ht : tags.Is_linear <;>
        simp [main_with, hq, hs, he, hl, ht, load_events, zero_D_events,
          solve_events, check_tag]
    · refine ⟨load_events r ++ echo_events r ++ zero_D_events tags r,
        solve_events r ++ [Event.cout (Item.text "Solution is valid."),
          Event.cout Item.endl] ++ report_events r, ?_⟩
      rcases echo_events_cases r with he | he <;> cases hl : r.qp_is_linear <;>
        cases ht : tags.Is_linear <;>
        by_cases ho : r.solver_status = Status.OPTIMAL <;>
        by_cases hi : r.solver_status = Status.INFEASIBLE <;>
        simp_all [main_with, load_events, zero_D_events,
          solve_events, report_events, optimal_events, check_tag]

/-- C5, amended: in every run `make_zero_D` is called at most once; it is
called exactly when the problem is valid, `qp.is_linear()` holds and the
`Is_linear` tag is false (with the `Tags` of the driver: exactly when the
problem is valid and `qp.is_linear()` holds); no construction of the solver
comes before the call, and the call does not occur once the solver is
constructed. -/
theorem make_zero_D_once_before_solver (tags : TagSet) (r : Run) :
    List.count Event.qp_make_zero_D (main_with tags r).1 ≤ 1
      ∧ (Event.qp_make_zero_D ∈ (main_with tags r).1 ↔
          (r.qp_is_valid = true ∧ r.qp_is_linear = true ∧ check_tag tags.Is_linear = false))
      ∧ (Event.qp_make_zero_D ∈ (main r).1 ↔
          (r.qp_is_valid = true ∧ r.qp_is_linear = true))
      ∧ (∀ a b, (main_with tags r).1 = a ++ Event.qp_make_zero_D :: b →
          ∀ v, Event.solver_construct v ∉ a)
      ∧ (∀ a b v, (main_with tags r).1 = a ++ Event.solver_construct v :: b →
          Event.qp_make_zero_D ∉ b) := by
  have hgen : ∀ t : TagSet, Event.qp_make_zero_D ∈ (main_with t r).1 ↔
      (r.qp_is_valid = true ∧ r.qp_is_linear = true ∧ check_tag t.Is_linear = false) := by
    intro t
    obtain ⟨p, q, hpq, hq0, _, _, hmem⟩ := main_with_split t r
    rw [hpq, List.mem_append]
    constructor
    · rintro (h | h)
      · exact hmem.mp h
      · exact absurd h hq0
    · intro h; exact Or.inl (hmem.mpr h)
  obtain ⟨p, q, hpq, hq0, hp0, hcount, hmem⟩ := main_with_split tags r
  refine ⟨?_, hgen tags, ?_, ?_, ?_⟩
  · rw [hpq, List.count_append, List.count_eq_zero.mpr hq0]
    simpa using hcount
  · have := hgen Tags
    simpa [main, Tags, check_tag] using this
  · intro a b hsplit v hv
    rw [hpq] at hsplit
    exact hp0 v (before_of_split hsplit hq0 _ hv)
  · intro a b v hsplit hmz
    rw [hpq] at hsplit
    exact hq0 (suffix_of_split hsplit (hp0 v) _ hmz)

/-- C6, as stated, fails: a run whose status is `OPTIMAL` while
`solver.is_valid()` is false writes "Solution is not valid!" and returns 1; for
its one variable it writes no value line. -/
theorem optimal_without_validity_reports_nothing :
    run_optimal_not_valid.solver_status = Status.OPTIMAL
      ∧ run_optimal_not_valid.qp_n = 1
      ∧ outputs (main run_optimal_not_valid).1 =
          [Item.text "Solution is not valid!", Item.endl]
      ∧ (main run_optimal_not_valid).2 = 1
      ∧ outputs (main run_optimal_not_valid).1 ≠
          optimal_header run_optimal_not_valid ++
            ((List.range run_optimal_not_valid.qp_n).map
              (value_line run_optimal_not_valid)).flatten := by
  have hout : outputs (main run_optimal_not_valid).1 =
      [Item.text "Solution is not valid!", Item.endl] := by
    simp [main, main_with, run_optimal_not_valid, load_events, echo_events,
      zero_D_events, solve_events, outputs, Tags, check_tag]
  refine ⟨rfl, rfl, hout, ?_, ?_⟩
  · simp [main, main_with, run_optimal_not_valid]
  · rw [hout]
    simp [optimal_header, run_optimal_not_valid]

/-- C6, amended: when the problem is valid, `solver.is_valid()` holds and the
status is `OPTIMAL`, the driver writes, after the header, exactly `qp.n()`
value lines in index order, line `i` pairing `qp.name_of_variable(i)` with
element `i` of the value sequence; the iterator is obtained once from
`variables_value_begin()`, then dereferenced and advanced once per index; the
driver returns 0. -/
theorem optimal_values_in_index_order (r : Run)
    (hq : r.qp_is_valid = true) (hs : r.solver_is_valid = true)
    (ho : r.solver_status = Status.OPTIMAL) :
    outputs (main r).1 =
        optimal_header r ++ ((List.range r.qp_n).map (value_line r)).flatten
      ∧ ((List.range r.qp_n).map (value_line r)).length = r.qp_n
      ∧ (∀ i, i < r.qp_n →
          ((List.range r.qp_n).map (value_line r))[i]? =
            some [ Item.text "  ", Item.text (r.qp_name_of_variable i), Item.text " = ",
                   Item.num (r.variable_value i), Item.endl ])
      ∧ (main r).1.filter is_accessor =
          Event.solver_solution :: Event.solver_variables_value_begin ::
            ((List.range r.qp_n).map (fun i => [Event.it_deref i, Event.it_incr])).flatten
      ∧ (main r).2 = 0 := by
  have hout := outputs_value_loop r r.qp_n 0 rfl
  have hacc := accessors_value_loop r r.qp_n 0 rfl
  rw [← List.range_eq_range'] at hout hacc
  refine ⟨?_, by simp, ?_, ?_, ?_⟩
  · rw [main_optimal_split r hq hs ho]
    simp only [outputs_append, optimal_events, hout]
    have hz : outputs (zero_D_events Tags r) = [] := by
      cases hl : r.qp_is_linear <;> simp [zero_D_events, hl, outputs, Tags, check_tag]
    rw [hz]
    rcases echo_events_cases r with he | he
    · have hv : ¬ r.verbosity > 0 := by
        intro hv; simp [echo_events, hv] at he
      simp [he, optimal_header, hv, outputs, load_events, solve_events]
    · have hv : r.verbosity > 0 := by
        by_contra hv; simp [echo_events, hv] at he
      simp [he, optimal_header, hv, outputs, load_events, solve_events]
  · intro i hi
    simp [hi, value_line]
  · rw [main_optimal_split r hq hs ho]
    simp only [List.filter_append, optimal_events, hacc]
    rcases echo_events_cases r with he | he <;> cases hl : r.qp_is_linear <;>
      simp [he, hl, load_events, zero_D_events, solve_events, is_accessor, Tags,
        check_tag, List.filter_cons]
  · simp [main, main_with, hq, hs]

theorem optimal_values_in_index_order_witness :
    run_optimal.qp_is_valid = true ∧ run_optimal.solver_is_valid = true
      ∧ run_optimal.solver_status = Status.OPTIMAL
      ∧ outputs (main run_optimal).1 =
          optimal_header run_optimal ++
            ((List.range run_optimal.qp_n).map (value_line run_optimal)).flatten
      ∧ ((List.range run_optimal.qp_n).map (value_line run_optimal)).length
          = run_optimal.qp_n
      ∧ (∀ i, i < run_optimal.qp_n →
          ((List.range run_optimal.qp_n).map (value_line run_optimal))[i]? =
            some [ Item.text "  ", Item.text (run_optimal.qp_name_of_variable i),
                   Item.text " = ", Item.num (run_optimal.variable_value i), Item.endl ])
      ∧ (main run_optimal).1.filter is_accessor =
          Event.solver_solution :: Event.solver_variables_value_begin ::
            ((List.range run_optimal.qp_n).map
              (fun i => [Event.it_deref i, Event.it_incr])).flatten
      ∧ (main run_optimal).2 = 0 :=
  ⟨rfl, rfl, rfl, optimal_values_in_index_order run_optimal rfl rfl rfl⟩

end QPDriver

namespace CGAL

/-! ## Facts about the formatted input -/

theorem sentry_buf_length_le (s : ISS) : (sentry s).buf.length ≤ s.buf.length := by
  unfold sentry
  split
  · exact Nat.le_refl _
  · have hlen : (s.buf.dropWhile isspace).length ≤ s.buf.length :=
      (List.dropWhile_sublist _).length_le
    split
    · simp
    · exact hlen

theorem strip_sign_length_le (b : List Char) : (strip_sign b).2.length ≤ b.length := by
  cases b with
  | nil => simp [strip_sign]
  | cons c t =>
    simp only [strip_sign]
    split
    · simp
    · split <;> simp

theorem int_value_some {negative : Bool} {ds : List Char} {v : Int}
    (h : int_value negative ds = some v) :
    ds ≠ [] ∧ INT_MIN ≤ v ∧ v ≤ INT_MAX := by
  unfold int_value at h
  by_cases hds : ds.isEmpty = true
  · simp [hds] at h
  · simp only [hds] at h
    have hne : ds ≠ [] := by
      intro h0; simp [h0] at hds
    by_cases hr : (if negative = true then -(digits_value ds : Int) else (digits_value ds : Int))
        < INT_MIN ∨ INT_MAX <
          (if negative = true then -(digits_value ds : Int) else (digits_value ds : Int))
    · simp [hr] at h
    · simp only [hr, if_false, Bool.false_eq_true, Option.some.injEq] at h
      rw [← h]
      exact ⟨hne, by omega, by omega⟩

/-- A successful extraction of an `int` consumes at least one character and
yields a value in the range of `int`. -/
theorem extract_int_some {s s1 : ISS} {i : Int} (h : extract_int s = (s1, some i)) :
    s1.buf.length < s.buf.length ∧ INT_MIN ≤ i ∧ i ≤ INT_MAX := by
  unfold extract_int at h
  simp only at h
  by_cases hf : (sentry s).failbit = true
  · simp [hf] at h
  · simp only [hf, if_false, Bool.false_eq_true] at h
    cases hv : int_value (strip_sign (sentry s).buf).1
        ((strip_sign (sentry s).buf).2.takeWhile isdigit) with
    | none => rw [hv] at h; simp at h
    | some v =>
      rw [hv] at h
      simp only [Prod.mk.injEq, Option.some.injEq] at h
      obtain ⟨h1, h2⟩ := h
      obtain ⟨hne, hlo, hhi⟩ := int_value_some hv
      subst h1
      subst h2
      refine ⟨?_, hlo, hhi⟩
      have hs := sentry_buf_length_le s
      have hsg := strip_sign_length_le (sentry s).buf
      have htd := List.takeWhile_append_dropWhile isdigit (strip_sign (sentry s).buf).2
      have hlen : ((strip_sign (sentry s).buf).2.takeWhile isdigit).length +
          ((strip_sign (sentry s).buf).2.dropWhile isdigit).length
            = (strip_sign (sentry s).buf).2.length := by
        rw [← List.length_append, htd]
      have hpos : 0 < ((strip_sign (sentry s).buf).2.takeWhile isdigit).length :=
        List.length_pos.mpr hne
      simp only
      omega

theorem ignore_buf_length_le (n : Nat) (d : Char) (s : ISS) :
    (ignore n d s).buf.length ≤ s.buf.length := by
  have haux : ∀ (n : Nat) (b : List Char), (ignore_chars n d b).1.length ≤ b.length := by
    intro n
    induction n with
    | zero => intro b; simp [ignore_chars]
    | succ n ih =>
      intro b
      cases b with
      | nil => simp [ignore_chars]
      | cons c cs =>
        simp only [ignore_chars]
        split
        · simp
        · exact Nat.le_trans (ih cs) (by simp)
  unfold ignore
  split
  · exact Nat.le_refl _
  · exact haux n s.buf

/-- The loop over a face line does not depend on the fuel, once the fuel
exceeds the length of the buffer: the fuel is never used up. -/
theorem face_loop_fuel {P N : Type} :
    ∀ (f1 f2 : Nat) (iss : ISS) (st : State P N),
      iss.buf.length < f1 → iss.buf.length < f2 →
        face_loop f1 iss st = face_loop f2 iss st := by
  intro f1
  induction f1 with
  | zero => intro f2 iss st h1; omega
  | succ f1 ih =>
    intro f2 iss st h1 h2
    cases f2 with
    | zero => omega
    | succ f2 =>
      simp only [face_loop]
      cases hx : extract_int iss with
      | mk iss1 r =>
        cases r with
        | none => rfl
        | some i =>
          simp only
          have hlt := (extract_int_some hx).1
          have hle := ignore_buf_length_le 256 ' ' iss1
          exact ih f2 _ _ (by omega) (by omega)

theorem ints_read_fuel :
    ∀ (f1 f2 : Nat) (iss : ISS),
      iss.buf.length < f1 → iss.buf.length < f2 → ints_read f1 iss = ints_read f2 iss := by
  intro f1
  induction f1 with
  | zero => intro f2 iss h1; omega
  | succ f1 ih =>
    intro f2 iss h1 h2
    cases f2 with
    | zero => omega
    | succ f2 =>
      simp only [ints_read]
      cases hx : extract_int iss with
      | mk iss1 r =>
        cases r with
        | none => rfl
        | some i =>
          simp only
          have hlt := (extract_int_some hx).1
          have hle := ignore_buf_length_le 256 ' ' iss1
          rw [ih f2 _ (by omega) (by omega)]

/-- Every integer read on a face line is in the range of `int`. -/
theorem ints_read_range :
    ∀ (fuel : Nat) (iss : ISS), ∀ i ∈ ints_read fuel iss, INT_MIN ≤ i ∧ i ≤ INT_MAX := by
  intro fuel
  induction fuel with
  | zero => intro iss i hi; simp [ints_read] at hi
  | succ fuel ih =>
    intro iss i hi
    simp only [ints_read] at hi
    cases hx : extract_int iss with
    | mk iss1 r =>
      rw [hx] at hi
      cases r with
      | none => simp at hi
      | some j =>
        simp only [List.mem_cons] at hi
        rcases hi with rfl | hi
        · exact (extract_int_some hx).2
        · exact ih _ i hi

/-- The loop over a face line applies the body to the integers read, in
order. -/
theorem face_loop_eq_foldl {P N : Type} :
    ∀ (fuel : Nat) (iss : ISS) (st : State P N),
      (face_loop fuel iss st).2 = (ints_read fuel iss).foldl face_step st := by
  intro fuel
  induction fuel with
  | zero => intro iss st; rfl
  | succ fuel ih =>
    intro iss st
    simp only [face_loop, ints_read]
    cases hx : extract_int iss with
    | mk iss1 r =>
      cases r with
      | none => rfl
      | some i => simp only [List.foldl_cons]; exact ih _ _

/-! ## Facts about the body of the face loop -/

theorem back_push_back_append (fs : List (List Nat)) (f : List Nat) (v : Nat) :
    back_push_back (fs ++ [f]) v = fs ++ [f ++ [v]] := by
  simp [back_push_back]

theorem foldl_face_step {P N : Type} (is : List Int) :
    ∀ (st : State P N) (fs : List (List Nat)) (f : List Nat), st.faces = fs ++ [f] →
      (is.foldl face_step st).points = st.points ∧
      (is.foldl face_step st).normals = st.normals ∧
      (is.foldl face_step st).faces = fs ++ [f ++ is.map (stored_index st.points.length)] := by
  induction is with
  | nil => intro st fs f h; simp [h]
  | cons i is ih =>
    intro st fs f h
    have hstep : (face_step st i).points = st.points ∧ (face_step st i).normals = st.normals ∧
        (face_step st i).faces = fs ++ [(f ++ [stored_index st.points.length i])] := by
      unfold face_step stored_index
      split <;> simp [h, back_push_back_append]
    obtain ⟨hp, hn, hf⟩ := hstep
    obtain ⟨h1, h2, h3⟩ := ih (face_step st i) fs _ hf
    simp only [List.foldl_cons]
    refine ⟨by rw [h1, hp], by rw [h2, hn], ?_⟩
    rw [h3, hp]
    simp

theorem stored_index_absolute (n : Nat) (i : Int) (h1 : 1 ≤ i) (h2 : i ≤ INT_MAX) :
    (stored_index n i : Int) = i - 1 := by
  unfold stored_index to_size_t SIZE_MOD INT_MAX at *
  have : ¬ i < 1 := by omega
  simp only [this, if_false]
  norm_num
  omega

theorem stored_index_relative (n : Nat) (i : Int) (h1 : i < 1) (h2 : -(n : Int) ≤ i)
    (hn : n < SIZE_MOD) : (stored_index n i : Int) = (n : Int) + i := by
  unfold stored_index to_size_t SIZE_MOD at *
  simp only [h1, if_true]
  norm_num at hn ⊢
  omega

/-! ## Face lines made of corners -/

theorem isdigit_not_isspace {c : Char} (h : isdigit c = true) : isspace c = false := by
  simp only [isdigit, isspace, Bool.and_eq_true, decide_eq_true_eq, Bool.or_eq_false_iff,
    Bool.and_eq_false_iff, decide_eq_false_iff_not] at *
  omega

theorem isdigit_toNat {c : Char} (h : isdigit c = true) : 48 ≤ c.toNat ∧ c.toNat ≤ 57 := by
  simpa [isdigit] using h

theorem takeWhile_dropWhile_stop {p : Char → Bool} (l r : List Char)
    (hl : ∀ x ∈ l, p x = true) (hr : ∀ c, r.head? = some c → p c = false) :
    (l ++ r).takeWhile p = l ∧ (l ++ r).dropWhile p = r := by
  induction l with
  | nil =>
    cases r with
    | nil => simp
    | cons c cs =>
      have := hr c rfl
      simp [List.takeWhile_cons, List.dropWhile_cons, this]
  | cons a l ih =>
    have ha := hl a (by simp)
    have := ih (fun x hx => hl x (by simp [hx]))
    simp [List.takeWhile_cons, List.dropWhile_cons, ha, this.1, this.2]

/-- The extraction of an `int` from a good stream that holds whitespace, then
the digits of a value that fits an `int`, then something that does not start
with a digit. -/
theorem extract_int_numeral (ws v rest : List Char)
    (hws : ∀ c ∈ ws, isspace c = true) (hv : numeral v)
    (hmax : (digits_value v : Int) ≤ INT_MAX)
    (hrest : ∀ c, rest.head? = some c → isdigit c = false) :
    extract_int { buf := ws ++ (v ++ rest), eofbit := false, failbit := false }
      = ({ buf := rest, eofbit := rest.isEmpty, failbit := false },
          some (digits_value v : Int)) := by
  obtain ⟨hne, hdig⟩ := hv
  cases v with
  | nil => exact absurd rfl hne
  | cons d ds =>
    have hd : isdigit d = true := hdig d (by simp)
    have hdn := isdigit_toNat hd
    have hsp : isspace d = false := isdigit_not_isspace hd
    have hdrop : (ws ++ (d :: ds ++ rest)).dropWhile isspace = d :: ds ++ rest := by
      have h := takeWhile_dropWhile_stop (p := isspace) ws (d :: ds ++ rest) hws
        (by intro c hc; simp at hc; rw [← hc]; exact hsp)
      exact h.2
    have hsentry : sentry { buf := ws ++ (d :: ds ++ rest), eofbit := false, failbit := false }
        = { buf := d :: ds ++ rest, eofbit := false, failbit := false } := by
      unfold sentry
      simp only [Bool.or_self, Bool.false_eq_true, if_false, hdrop]
      rfl
    have hminus : d ≠ '-' := by
      intro h; rw [h] at hdn; revert hdn; decide
    have hplus : d ≠ '+' := by
      intro h; rw [h] at hdn; revert hdn; decide
    have hsign : strip_sign (d :: ds ++ rest) = (false, d :: ds ++ rest) := by
      simp [strip_sign, hminus, hplus]
    have htd := takeWhile_dropWhile_stop (p := isdigit) (d :: ds) rest hdig hrest
    have hval : int_value false (d :: ds) = some (digits_value (d :: ds) : Int) := by
      unfold int_value
      have h0 : (0 : Int) ≤ (digits_value (d :: ds) : Int) := Int.natCast_nonneg _
      have hlo : ¬ ((digits_value (d :: ds) : Int) < INT_MIN ∨
          INT_MAX < (digits_value (d :: ds) : Int)) := by
        unfold INT_MIN
        unfold INT_MAX at hmax ⊢
        omega
      simp [hlo]
    unfold extract_int
    simp only [hsentry, Bool.false_eq_true, if_false, hsign, htd.1, htd.2, hval]

/-- The call `ignore(n, d)` on a part of at most `n` characters without the
delimiter, followed by the delimiter: the part is discarded whole, and the
delimiter too unless the part has exactly `n` characters. -/
theorem ignore_chars_to_delim (d : Char) :
    ∀ (n : Nat) (sfx more : List Char), (∀ c ∈ sfx, c ≠ d) → sfx.length ≤ n →
      ∃ ws, (ws = [] ∨ ws = [d]) ∧ ignore_chars n d (sfx ++ d :: more) = (ws ++ more, false) := by
  intro n
  induction n with
  | zero =>
    intro sfx more _ hl
    have h0 : sfx = [] := List.eq_nil_of_length_eq_zero (by omega)
    subst h0
    exact ⟨[d], Or.inr rfl, by simp [ignore_chars]⟩
  | succ n ih =>
    intro sfx more hs hl
    cases sfx with
    | nil => exact ⟨[], Or.inl rfl, by simp [ignore_chars]⟩
    | cons c cs =>
      have hc : c ≠ d := hs c (by simp)
      simp only [List.cons_append, ignore_chars, hc, if_false]
      exact ih cs more (fun x hx => hs x (by simp [hx])) (by simpa using hl)

/-- The call `ignore(n, d)` on a part of at most `n` characters without the
delimiter, at the end of the buffer: nothing is left. -/
theorem ignore_chars_to_end (d : Char) :
    ∀ (n : Nat) (sfx : List Char), (∀ c ∈ sfx, c ≠ d) → sfx.length ≤ n →
      (ignore_chars n d sfx).1 = [] := by
  intro n
  induction n with
  | zero =>
    intro sfx _ hl
    have h0 : sfx = [] := List.eq_nil_of_length_eq_zero (by omega)
    subst h0
    simp [ignore_chars]
  | succ n ih =>
    intro sfx hs hl
    cases sfx with
    | nil => simp [ignore_chars]
    | cons c cs =>
      have hc : c ≠ d := hs c (by simp)
      simp only [ignore_chars, hc, if_false]
      exact ih cs (fun x hx => hs x (by simp [hx])) (by simpa using hl)

/-- On a stream that is not `good()` the face loop ends at once. -/
theorem face_loop_not_good {P N : Type} (fuel : Nat) (iss : ISS) (st : State P N)
    (h : (iss.eofbit || iss.failbit) = true) : (face_loop fuel iss st).2 = st := by
  cases fuel with
  | zero => rfl
  | succ fuel =>
    have hx : extract_int iss = ({ iss with failbit := true }, none) := by
      unfold extract_int sentry
      simp [h]
    simp only [face_loop, hx]

/-- On a stream whose buffer is used up the face loop ends at once. -/
theorem face_loop_empty_buf {P N : Type} (fuel : Nat) (iss : ISS) (st : State P N)
    (h : iss.buf = []) : (face_loop fuel iss st).2 = st := by
  by_cases hg : (iss.eofbit || iss.failbit) = true
  · exact face_loop_not_good fuel iss st hg
  · cases fuel with
    | zero => rfl
    | succ fuel =>
      have hx : extract_int iss = ({ buf := [], eofbit := true, failbit := true }, none) := by
        unfold extract_int sentry
        simp [hg, h]
      simp only [face_loop, hx]

theorem tokens_text_head (ts : List (List Char × List Char)) :
    ∀ c, (tokens_text ts).head? = some c → c = ' ' := by
  intro c hc
  cases ts with
  | nil => simp [tokens_text] at hc
  | cons t ts => simp [tokens_text] at hc; exact hc.symm

/-- The face loop on a line of good tokens applies the body to the vertex ids,
in order. -/
theorem face_loop_tokens {P N : Type} :
    ∀ (ts : List (List Char × List Char)) (t : List Char × List Char) (ws : List Char)
      (fuel : Nat) (st : State P N),
      good_token t → (∀ u ∈ ts, good_token u) → (∀ c ∈ ws, isspace c = true) →
      (ws ++ (t.1 ++ (t.2 ++ tokens_text ts))).length < fuel →
      (face_loop fuel
          { buf := ws ++ (t.1 ++ (t.2 ++ tokens_text ts)), eofbit := false, failbit := false }
          st).2
        = (t :: ts).foldl (fun s u => face_step s (digits_value u.1 : Int)) st := by
  intro ts
  induction ts with
  | nil =>
    intro t ws fuel st ht _ hws hfuel
    obtain ⟨hnum, _, hmax, hnosp, hlen, hhead⟩ := ht
    cases fuel with
    | zero => omega
    | succ fuel =>
      have hrest : ∀ c, (t.2 ++ tokens_text []).head? = some c → isdigit c = false := by
        intro c hc
        simp only [tokens_text, List.map_nil, List.flatten_nil, List.append_nil] at hc
        exact hhead c hc
      simp only [face_loop, extract_int_numeral ws t.1 _ hws hnum hmax hrest, List.foldl_cons,
        List.foldl_nil]
      apply face_loop_empty_buf
      simp only [tokens_text, List.map_nil, List.flatten_nil, List.append_nil]
      unfold ignore
      cases h2 : t.2 with
      | nil => simp
      | cons c cs =>
        have hend := ignore_chars_to_end ' ' 256 t.2 hnosp hlen
        rw [h2] at hend
        simp [hend]
  | cons u ts ih =>
    intro t ws fuel st ht hts hws hfuel
    obtain ⟨hnum, _, hmax, hnosp, hlen, hhead⟩ := ht
    cases fuel with
    | zero => omega
    | succ fuel =>
      have htext : tokens_text (u :: ts) = ' ' :: (u.1 ++ (u.2 ++ tokens_text ts)) := by
        simp [tokens_text]
      have hrest : ∀ c, (t.2 ++ tokens_text (u :: ts)).head? = some c → isdigit c = false := by
        intro c hc
        cases h2 : t.2 with
        | nil =>
          rw [h2, htext] at hc
          simp at hc
          rw [← hc]; decide
        | cons a l =>
          rw [h2] at hc
          simp at hc
          exact hhead c (by rw [h2]; simp [hc])
      have hign : ∃ ws2, (ws2 = [] ∨ ws2 = [' ']) ∧ ignore 256 ' '
          { buf := t.2 ++ tokens_text (u :: ts),
            eofbit := (t.2 ++ tokens_text (u :: ts)).isEmpty, failbit := false }
          = { buf := ws2 ++ (u.1 ++ (u.2 ++ tokens_text ts)), eofbit := false,
              failbit := false } := by
        have hemp : (t.2 ++ tokens_text (u :: ts)).isEmpty = false := by
          rw [htext]; simp
        obtain ⟨ws2, hws2, hig⟩ := ignore_chars_to_delim ' ' 256 t.2
          (u.1 ++ (u.2 ++ tokens_text ts)) hnosp hlen
        refine ⟨ws2, hws2, ?_⟩
        unfold ignore
        rw [hemp, htext, hig]
        simp
      obtain ⟨ws2, hws2, hign2⟩ := hign
      have hws2sp : ∀ c ∈ ws2, isspace c = true := by
        intro c hc
        rcases hws2 with h0 | h0
        · rw [h0] at hc; simp at hc
        · rw [h0] at hc; simp at hc; rw [hc]; decide
      have hws2len : ws2.length ≤ 1 := by
        rcases hws2 with h0 | h0 <;> simp [h0]
      simp only [face_loop, extract_int_numeral ws t.1 _ hws hnum hmax hrest, hign2]
      rw [ih u ws2 fuel _ (hts u (by simp)) (fun x hx => hts x (by simp [hx])) hws2sp]
      · simp
      · have hnpos : 0 < t.1.length := List.length_pos.mpr hnum.1
        rw [htext] at hfuel
        simp only [List.length_append, List.length_cons] at hfuel ⊢
        omega

/-- The treatment of the line `f` followed by good tokens: one face is
appended, which holds the vertex ids less one. -/
theorem process_line_tokens {P N : Type}
    (read_point : ISS → Option P) (read_normal : ISS → Option N)
    (st : State P N) (ts : List (List Char × List Char)) (hts : ∀ u ∈ ts, good_token u) :
    (process_line read_point read_normal st ('f' :: tokens_text ts)).continues = true
      ∧ (process_line read_point read_normal st ('f' :: tokens_text ts)).state.points
          = st.points
      ∧ (process_line read_point read_normal st ('f' :: tokens_text ts)).state.faces
          = st.faces ++ [ts.map (fun u => digits_value u.1 - 1)] := by
  have hx : extract_string (ISS.of_line ('f' :: tokens_text ts))
      = ({ buf := tokens_text ts, eofbit := (tokens_text ts).isEmpty, failbit := false },
          some ['f']) := by
    have hstop : ∀ c, (tokens_text ts).head? = some c → (fun c => !isspace c) c = false := by
      intro c hc
      rw [tokens_text_head ts c hc]; decide
    have htd := takeWhile_dropWhile_stop (p := fun c => !isspace c) ['f'] (tokens_text ts)
      (by intro x hx; simp at hx; rw [hx]; decide) hstop
    have hsentry : sentry (ISS.of_line ('f' :: tokens_text ts))
        = ISS.of_line ('f' :: tokens_text ts) := by
      unfold sentry ISS.of_line
      have : isspace 'f' = false := by decide
      simp [List.dropWhile_cons, this]
    unfold extract_string
    simp only [hsentry]
    simp only [ISS.of_line, Bool.false_eq_true, if_false]
    have h1 : ('f' :: tokens_text ts) = ['f'] ++ tokens_text ts := rfl
    rw [h1, htd.1, htd.2]
  have hloop : (face_loop ((tokens_text ts).length + 1)
      { buf := tokens_text ts, eofbit := (tokens_text ts).isEmpty, failbit := false }
      ({ st with faces := st.faces ++ [[]] } : State P N)).2
      = (ts.map (fun u => (digits_value u.1 : Int))).foldl face_step
          ({ st with faces := st.faces ++ [[]] } : State P N) := by
    cases ts with
    | nil =>
      rw [face_loop_not_good _ _ _ (by simp [tokens_text])]
      simp
    | cons t ts =>
      have htext : tokens_text (t :: ts) = [' '] ++ (t.1 ++ (t.2 ++ tokens_text ts)) := by
        simp [tokens_text]
      have hemp : (tokens_text (t :: ts)).isEmpty = false := by rw [htext]; simp
      rw [hemp]
      rw [htext, face_loop_tokens ts t [' '] _ _ (hts t (by simp))
        (fun x hx => hts x (by simp [hx])) (by intro c hc; simp at hc; rw [hc]; decide)
        (by simp)]
      rw [List.foldl_map]
  have hproc : process_line read_point read_normal st ('f' :: tokens_text ts) =
      Outcome.next (face_loop ((tokens_text ts).length + 1)
        { buf := tokens_text ts, eofbit := (tokens_text ts).isEmpty, failbit := false }
        { st with faces := st.faces ++ [[]] }).2 := by
    unfold process_line
    simp only [hx]
    simp
  obtain ⟨hp, _, hfc⟩ := foldl_face_step (ts.map (fun u => (digits_value u.1 : Int)))
    ({ st with faces := st.faces ++ [[]] } : State P N) st.faces [] rfl
  rw [hproc, hloop]
  simp only [Outcome.continues, Outcome.state]
  refine ⟨trivial, hp, ?_⟩
  rw [hfc]
  simp only [List.nil_append, List.map_map]
  congr 2
  apply List.map_congr_left
  intro u hu
  obtain ⟨_, h1, hmax, _⟩ := hts u hu
  have := stored_index_absolute st.points.length (digits_value u.1 : Int) (by omega) hmax
  simp only [Function.comp]
  omega

theorem numeral_no_space {ds : List Char} (h : numeral ds) : ∀ c ∈ ds, c ≠ ' ' := by
  intro c hc hsp
  have := h.2 c hc
  rw [hsp] at this
  revert this
  decide

theorem slash_line_eq (cs : List Corner) :
    slash_line cs
      = 'f' :: tokens_text (cs.map (fun c => (c.v, '/' :: (c.vt ++ '/' :: c.vn)))) := by
  simp [slash_line, tokens_text, List.map_map, Function.comp_def]

theorem plain_line_eq (cs : List Corner) :
    plain_line cs = 'f' :: tokens_text (cs.map (fun c => (c.v, ([] : List Char)))) := by
  simp [plain_line, tokens_text, List.map_map, Function.comp_def]

/-! ## The claims about the reader -/

/-- C7: the reader returns true on streams whose faces hold an index that is
not below the number of points: on the stream `f 1` (no vertex at all) it
returns true with the face `[0]`, and on a stream with one vertex and the
face line `f 1 2` it returns true with the face `[0, 1]`, also through the
public overload. -/
theorem read_OBJ_accepts_index_out_of_range :
    ((internal.read_OBJ read_int_point no_normal ⟨true, "f 1\n".toList⟩ [] []).1 = true
      ∧ (internal.read_OBJ read_int_point no_normal ⟨true, "f 1\n".toList⟩ [] []).2.points = []
      ∧ (internal.read_OBJ read_int_point no_normal ⟨true, "f 1\n".toList⟩ [] []).2.faces = [[0]])
    ∧ ((internal.read_OBJ read_int_point no_normal
          ⟨true, "v 0 0 0\nf 1 2\n".toList⟩ [] []).1 = true
      ∧ (internal.read_OBJ read_int_point no_normal
          ⟨true, "v 0 0 0\nf 1 2\n".toList⟩ [] []).2.points = [(0, 0, 0)]
      ∧ (internal.read_OBJ read_int_point no_normal
          ⟨true, "v 0 0 0\nf 1 2\n".toList⟩ [] []).2.faces = [[0, 1]])
    ∧ read_OBJ read_int_point no_normal ⟨true, "v 0 0 0\nf 1 2\n".toList⟩ [] []
        = (true, [(0, 0, 0)], [[0, 1]])
    ∧ ¬ (∀ is : IStream,
          (internal.read_OBJ read_int_point no_normal is [] []).1 = true →
          ∀ f ∈ (internal.read_OBJ read_int_point no_normal is [] []).2.faces, ∀ idx ∈ f,
            idx < (internal.read_OBJ read_int_point no_normal is [] []).2.points.length) := by
  refine ⟨by decide, by decide, by decide, ?_⟩
  intro h
  have h1 := h ⟨true, "f 1\n".toList⟩ (by decide) [0] (by decide) 0 (by simp)
  revert h1
  decide

/-- C8, as stated, fails: on the face line `f -1` read before any vertex, the
integer read is -1 and the claim has the reader append `0 + (-1)`; the
reader appends 18446744073709551615, and a read of that line followed by one
vertex returns true with that face. -/
theorem relative_index_wraps_around :
    first_word "f -1".toList = some ['f']
      ∧ ints_of (after_first_word "f -1".toList) = [-1]
      ∧ empty_state.points.length = 0
      ∧ (process_line read_int_point no_normal empty_state "f -1".toList).state.faces
          = [[18446744073709551615]]
      ∧ (ints_of (after_first_word "f -1".toList)).map (claimed_index 0) = [-1]
      ∧ ([18446744073709551615] : List Nat).map (fun v => (v : Int))
          ≠ (ints_of (after_first_word "f -1".toList)).map (claimed_index 0)
      ∧ read_OBJ read_int_point no_normal ⟨true, "f -1\nv 0 0 0\n".toList⟩ [] []
          = (true, [(0, 0, 0)], [[18446744073709551615]]) := by
  decide

/-- C8, amended: a line whose first word is `f` appends exactly one new face
and changes neither the points nor the normals; the face has one index per
integer read on the line, in order, and the index for the integer `i` is
`i - 1` when `i >= 1`, and `npoints + i` when `i < 1` and `-npoints <= i`,
where `npoints` is the number of points read so far (a `std::size_t`). -/
theorem face_line_appends_converted_indices {P N : Type}
    (read_point : ISS → Option P) (read_normal : ISS → Option N)
    (st : State P N) (line : List Char)
    (hf : first_word line = some ['f']) (hn : st.points.length < SIZE_MOD) :
    (process_line read_point read_normal st line).continues = true
      ∧ (process_line read_point read_normal st line).state.points = st.points
      ∧ (process_line read_point read_normal st line).state.normals = st.normals
      ∧ ∃ face, (process_line read_point read_normal st line).state.faces = st.faces ++ [face]
          ∧ List.Forall₂
              (fun (i : Int) (v : Nat) =>
                (1 ≤ i ∨ -(st.points.length : Int) ≤ i) →
                  (v : Int) = claimed_index st.points.length i)
              (ints_of (after_first_word line)) face := by
  have hne : line.isEmpty = false := by
    cases line with
    | nil => simp [first_word, extract_string, sentry, ISS.of_line] at hf
    | cons c cs => rfl
  have hx : extract_string (ISS.of_line line) = (after_first_word line, some ['f']) := by
    unfold first_word at hf
    unfold after_first_word
    rw [← hf]
  have hfold := face_loop_eq_foldl ((after_first_word line).buf.length + 1)
    (after_first_word line) ({ st with faces := st.faces ++ [[]] } : State P N)
  obtain ⟨hp, hnm, hfc⟩ := foldl_face_step
    (ints_read ((after_first_word line).buf.length + 1) (after_first_word line))
    ({ st with faces := st.faces ++ [[]] } : State P N) st.faces [] rfl
  have hproc : process_line read_point read_normal st line =
      Outcome.next (face_loop ((after_first_word line).buf.length + 1)
        (after_first_word line) { st with faces := st.faces ++ [[]] }).2 := by
    unfold process_line
    simp only [hne, hx]
    simp
  rw [hproc, hfold]
  simp only [Outcome.continues, Outcome.state]
  refine ⟨trivial, hp, hnm, _, hfc, ?_⟩
  simp only [List.nil_append, ints_of]
  rw [List.forall₂_map_right_iff, List.forall₂_same]
  intro i hi hcase
  have hr := ints_read_range _ _ i hi
  unfold claimed_index
  by_cases h1 : 1 ≤ i
  · simp only [h1, if_true]
    exact stored_index_absolute _ i h1 hr.2
  · simp only [h1, if_false]
    rcases hcase with hc | hc
    · exact absurd hc h1
    · exact stored_index_relative _ i (by omega) hc hn

theorem face_line_appends_converted_indices_witness :
    first_word "f 1/1/1 -1 3".toList = some ['f']
      ∧ three_points_state.points.length < SIZE_MOD
      ∧ (process_line read_int_point no_normal three_points_state
          "f 1/1/1 -1 3".toList).continues = true
      ∧ (process_line read_int_point no_normal three_points_state
          "f 1/1/1 -1 3".toList).state.points = three_points_state.points
      ∧ (process_line read_int_point no_normal three_points_state
          "f 1/1/1 -1 3".toList).state.normals = three_points_state.normals
      ∧ ∃ face, (process_line read_int_point no_normal three_points_state
            "f 1/1/1 -1 3".toList).state.faces = three_points_state.faces ++ [face]
          ∧ List.Forall₂
              (fun (i : Int) (v : Nat) =>
                (1 ≤ i ∨ -(three_points_state.points.length : Int) ≤ i) →
                  (v : Int) = claimed_index three_points_state.points.length i)
              (ints_of (after_first_word "f 1/1/1 -1 3".toList)) face :=
  ⟨by decide, by decide,
    face_line_appends_converted_indices read_int_point no_normal three_points_state
      "f 1/1/1 -1 3".toList (by decide) (by decide)⟩

/-- C9, as stated, fails: the corners `2147483648/1/1`, `1/10...0/1` (a
texture id of 257 digits) and `1/1...1/7` (a part `/vt/vn` of exactly 257
characters) hold positive integers only; for the line of the first one the
reader appends the empty face, not `[2147483647]`; for the line of the second
one followed by `2/1/1` it appends `[0, 3, 1]`, not `[0, 1]`: digits of the
texture id are read as a face index; for the line of the third one followed
by `2/1/1` it appends `[0, 6, 1]`: the normal id is read as a face index. -/
theorem face_line_vertex_ids_unbounded :
    (corner_too_large.positive
      ∧ (process_line read_int_point no_normal three_points_state
            (slash_line [corner_too_large])).state.faces = [[]]
      ∧ vertex_face [corner_too_large] = [2147483647])
    ∧ (corner_too_long.positive ∧ corner_two.positive
      ∧ (process_line read_int_point no_normal three_points_state
            (slash_line [corner_too_long, corner_two])).state.faces = [[0, 3, 1]]
      ∧ (process_line read_int_point no_normal three_points_state
            (plain_line [corner_too_long, corner_two])).state.faces = [[0, 1]]
      ∧ vertex_face [corner_too_long, corner_two] = [0, 1])
    ∧ (corner_257.positive
      ∧ corner_257.vt.length + corner_257.vn.length + 2 = 257
      ∧ (process_line read_int_point no_normal three_points_state
            (slash_line [corner_257, corner_two])).state.faces = [[0, 6, 1]]
      ∧ vertex_face [corner_257, corner_two] = [0, 1]) := by
  set_option maxRecDepth 100000 in decide

/-- C9, amended: for a face line `f v1/vt1/vn1 ... vk/vtk/vnk` whose ids are
positive integers, with every vertex id at most 2147483647 (an `int`), every
part `/vt/vn` of at most 256 characters, and the corners separated by single
spaces, the face appended is exactly `[v1-1, ..., vk-1]`, the same face as for
the line `f v1 ... vk`. -/
theorem face_line_reads_vertex_ids {P N : Type}
    (read_point : ISS → Option P) (read_normal : ISS → Option N)
    (st : State P N) (cs : List Corner)
    (hpos : ∀ c ∈ cs, c.positive)
    (hint : ∀ c ∈ cs, digits_value c.v ≤ 2147483647)
    (hlen : ∀ c ∈ cs, c.vt.length + c.vn.length + 2 ≤ 256) :
    (process_line read_point read_normal st (slash_line cs)).continues = true
      ∧ (process_line read_point read_normal st (slash_line cs)).state.faces
          = st.faces ++ [vertex_face cs]
      ∧ (process_line read_point read_normal st (plain_line cs)).state.faces
          = st.faces ++ [vertex_face cs]
      ∧ (process_line read_point read_normal st (slash_line cs)).state.faces
          = (process_line read_point read_normal st (plain_line cs)).state.faces := by
  have hslash : ∀ u ∈ cs.map (fun c => (c.v, '/' :: (c.vt ++ '/' :: c.vn))), good_token u := by
    intro u hu
    simp only [List.mem_map] at hu
    obtain ⟨c, hc, rfl⟩ := hu
    obtain ⟨⟨hv, hv1⟩, ⟨hvt, _⟩, ⟨hvn, _⟩⟩ := hpos c hc
    refine ⟨hv, hv1, ?_, ?_, ?_, ?_⟩
    · have := hint c hc
      simp only [INT_MAX]
      omega
    · intro x hx
      simp only [List.mem_cons, List.mem_append] at hx
      rcases hx with rfl | hx | rfl | hx
      · decide
      · exact numeral_no_space hvt x hx
      · decide
      · exact numeral_no_space hvn x hx
    · have := hlen c hc
      simp only [List.length_cons, List.length_append]
      omega
    · intro x hx
      simp at hx
      rw [← hx]; decide
  have hplain : ∀ u ∈ cs.map (fun c => (c.v, ([] : List Char))), good_token u := by
    intro u hu
    simp only [List.mem_map] at hu
    obtain ⟨c, hc, rfl⟩ := hu
    obtain ⟨⟨hv, hv1⟩, _, _⟩ := hpos c hc
    refine ⟨hv, hv1, ?_, ?_, ?_, ?_⟩
    · have := hint c hc
      simp only [INT_MAX]
      omega
    · intro x hx; simp at hx
    · simp
    · intro x hx; simp at hx
  obtain ⟨hc1, _, hf1⟩ := process_line_tokens read_point read_normal st _ hslash
  obtain ⟨_, _, hf2⟩ := process_line_tokens read_point read_normal st _ hplain
  rw [← slash_line_eq] at hc1 hf1
  rw [← plain_line_eq] at hf2
  have e1 : (cs.map (fun c => (c.v, '/' :: (c.vt ++ '/' :: c.vn)))).map
      (fun u => digits_value u.1 - 1) = vertex_face cs := by
    simp [vertex_face, List.map_map, Function.comp]
  have e2 : (cs.map (fun c => (c.v, ([] : List Char)))).map
      (fun u => digits_value u.1 - 1) = vertex_face cs := by
    simp [vertex_face, List.map_map, Function.comp]
  rw [e1] at hf1
  rw [e2] at hf2
  exact ⟨hc1, hf1, hf2, by rw [hf1, hf2]⟩

theorem face_line_reads_vertex_ids_witness :
    (∀ c ∈ [corner_256, corner_two, corner_three], c.positive)
      ∧ (∀ c ∈ [corner_256, corner_two, corner_three], digits_value c.v ≤ 2147483647)
      ∧ (∀ c ∈ [corner_256, corner_two, corner_three], c.vt.length + c.vn.length + 2 ≤ 256)
      ∧ corner_256.vt.length + corner_256.vn.length + 2 = 256
      ∧ vertex_face [corner_256, corner_two, corner_three] = [2, 1, 2]
      ∧ (process_line read_int_point no_normal three_points_state
            (slash_line [corner_256, corner_two, corner_three])).continues = true
      ∧ (process_line read_int_point no_normal three_points_state
            (slash_line [corner_256, corner_two, corner_three])).state.faces
          = three_points_state.faces ++ [vertex_face [corner_256, corner_two, corner_three]]
      ∧ (process_line read_int_point no_normal three_points_state
            (plain_line [corner_256, corner_two, corner_three])).state.faces
          = three_points_state.faces ++ [vertex_face [corner_256, corner_two, corner_three]]
      ∧ (process_line read_int_point no_normal three_points_state
            (slash_line [corner_256, corner_two, corner_three])).state.faces
          = (process_line read_int_point no_normal three_points_state
            (plain_line [corner_256, corner_two, corner_three])).state.faces :=
  ⟨by set_option maxRecDepth 100000 in decide, by decide,
    by set_option maxRecDepth 100000 in decide, by decide, by decide,
    face_line_reads_vertex_ids read_int_point no_normal three_points_state
      [corner_256, corner_two, corner_three]
      (by set_option maxRecDepth 100000 in decide) (by decide)
      (by set_option maxRecDepth 100000 in decide)⟩

end CGAL
